import Mathlib

/-!
Formal model of the circular-convolution contact matcher in `contact.py`.

The script's `main` routine takes two selected objects (each an ordered list
of (coordinate, vertex-index) pairs), relabels them so `large` has at least
as many points as `small`, sweeps a cyclic family of index rotations of the
large set, keeps for every position of the usable window the strictly
smallest distance seen so far together with the index of the large-set point
that realised it, derives a threshold from the sorted distances and a user
sample size, and emits the identifier pairs whose rounded distance is within
the threshold.

Modelling conventions:
* numpy float arrays are idealised as lists of exact rationals; the point
  type is kept abstract together with its distance function
  (`np.linalg.norm` row-wise), so every theorem below holds for any
  coordinate type and any rational-valued metric.
* `np.roll(a, -1)` is `List.rotate a 1`; fancy indexing `a[idx]` is a map of
  `List.getD`; boolean-mask selection `a[mask]` is `maskFilter`.
* Python exceptions (`zip` unpacking an empty list, `np.amax` of an empty
  slice, the explicit `raise`) become `Except.error`.
* Python's `round(x, 5)` is modelled as exact rounding of `x * 10^5` to the
  nearest integer; `arr[:k]` keeps Python slice semantics for negative `k`.
-/

namespace Contact

/-- Python `round(x, 5)` idealised over exact rationals: round `x * 10^5` to
the nearest integer and scale back. -/
def round5 (q : ℚ) : ℚ := ((round (q * 100000) : ℤ) : ℚ) / 100000

/-- Model of `np.sort` on a 1-d array: ascending sort. -/
def npSort (l : List ℚ) : List ℚ := List.insertionSort (· ≤ ·) l

/-- Model of `np.amax`: maximum of an array, an error on an empty array. -/
def npAmax : List ℚ → Except String ℚ
  | [] => Except.error "zero-size array to reduction operation maximum"
  | x :: xs => Except.ok (xs.foldl max x)

/-- Total variant of the array maximum, used to reason about `npAmax`. -/
def maxOfD : List ℚ → ℚ
  | [] => 0
  | x :: xs => xs.foldl max x

/-- Total variant of the array minimum (used to state the full-sweep claim). -/
def minOfD : List ℚ → ℚ
  | [] => 0
  | x :: xs => xs.foldl min x

/-- Python slice `l[:s]`, including the negative-`s` semantics
(`l[:-k]` drops the last `k` elements, down to the empty list). -/
def pySlice (l : List α) (s : ℤ) : List α :=
  if 0 ≤ s then l.take s.toNat else l.take ((l.length : ℤ) + s).toNat

/-- numpy boolean-mask selection `l[mask]`. -/
def maskFilter (mask : List Bool) (l : List α) : List α :=
  ((mask.zip l).filter (fun p => p.1)).map Prod.snd

/-- Elementwise update of `leastdists` for one offset:
`leastdists[mask] = new[mask]` with `mask = new < leastdists`. -/
def updLD (old new : List ℚ) : List ℚ :=
  List.zipWith (fun o v => if v < o then v else o) old new

/-- Elementwise update of the dynamic pointer for one offset:
`dynamic_pointer[:limit][mask] = rolling_pointer_resized[mask]`
with `mask = new < leastdists`. -/
def updDP (old new : List ℚ) (dp win : List ℕ) : List ℕ :=
  List.zipWith (fun ov dw => if ov.2 < ov.1 then dw.2 else dw.1)
    (old.zip new) (dp.zip win)

/-- Distances between the small-set coordinates and the large-set
coordinates selected by the index window `win`
(`np.linalg.norm(small_co - large_co[win], axis=1)`), for an abstract
distance function `d`. -/
def distsTo [Inhabited P] (d : P → P → ℚ) (small large : List P)
    (win : List ℕ) : List ℚ :=
  List.zipWith (fun p j => d p (large.getD j default)) small win

/-- The mutable state of the search loop: the rolled index array, the best
distances so far, and the index of the best partner so far (only the first
`limit` entries of `dynamic_pointer` are ever read or written, so the model
keeps exactly those). -/
structure SweepState where
  rolling_pointer : List ℕ
  leastdists : List ℚ
  dynamic_pointer : List ℕ
deriving Repr, DecidableEq

/-- One iteration of the search loop: roll the pointer by one, recompute
window distances, and keep strictly smaller distances together with their
partner indices. The source guards the update with `if np.any(mask)`, which
only skips a no-op, so the model applies the update unconditionally. -/
def sweepStep [Inhabited P] (d : P → P → ℚ) (small large : List P)
    (limit : ℕ) (st : SweepState) : SweepState :=
  let rolling := st.rolling_pointer.rotate 1
  let win := rolling.take limit
  let newd := distsTo d small large win
  { rolling_pointer := rolling
    leastdists := updLD st.leastdists newd
    dynamic_pointer := updDP st.leastdists newd st.dynamic_pointer win }

/-- The state before the loop: `rolling_pointer = np.arange(m)`, initial
distances at offset `0`, `dynamic_pointer[:limit] = np.arange(m)[:limit]`. -/
def initState [Inhabited P] (d : P → P → ℚ) (small large : List P)
    (m limit : ℕ) : SweepState :=
  { rolling_pointer := List.range m
    leastdists := distsTo d small large ((List.range m).take limit)
    dynamic_pointer := (List.range m).take limit }

/-- State after `k` iterations of the loop. -/
def sweepN [Inhabited P] (d : P → P → ℚ) (small large : List P)
    (m limit k : ℕ) : SweepState :=
  (sweepStep d small large limit)^[k] (initState d small large m limit)

/-- The window distances the loop computes at offset `k` (offset `0` is the
initial pass before the loop). -/
def offsetDists [Inhabited P] (d : P → P → ℚ) (small large : List P)
    (k : ℕ) : List ℚ :=
  distsTo d small large (((List.range large.length).rotate k).take small.length)

/-- Relabelled smaller input: the second selected object unless the first
has strictly fewer points (`if diff < 0: swap`). -/
def smallSet (objA objB : List (P × ℕ)) : List (P × ℕ) :=
  if objA.length < objB.length then objA else objB

/-- Relabelled larger input: the first selected object unless it has
strictly fewer points than the second. -/
def largeSet (objA objB : List (P × ℕ)) : List (P × ℕ) :=
  if objA.length < objB.length then objB else objA

/-- The finalized search state for a pair of input objects: the full cyclic
sweep with `iterations = len(small) + absdiff - 1` loop passes,
`limit = len(large) - absdiff`. -/
def finalState [Inhabited P] (d : P → P → ℚ) (objA objB : List (P × ℕ)) :
    SweepState :=
  let small_co := (smallSet objA objB).map Prod.fst
  let large_co := (largeSet objA objB).map Prod.fst
  let absdiff := large_co.length - small_co.length
  let iterations := small_co.length + absdiff - 1
  let limit := large_co.length - absdiff
  sweepN d small_co large_co large_co.length limit iterations

/-- The matcher's successful output: the two identifier lists and the
threshold that justified the cutoff. -/
structure PairingResult where
  largeIds : List ℕ
  smallIds : List ℕ
  threshold : ℚ
deriving Repr, DecidableEq

deriving instance DecidableEq for Except

/-- Error message of the post-hoc length check in `main`. -/
def mismatchMsg : String := "Equal number of nodes not found contact developer"

/-- Error message for `zip(*[])` failing on an empty vertex list. -/
def emptyMsg : String := "not enough values to unpack"

/-- Everything `main` computes after `np.amax` succeeded with value `t`:
round the threshold, round the distances, build the `<=`-mask, and select
the two identifier lists. -/
def buildResult [Inhabited P] (d : P → P → ℚ) (objA objB : List (P × ℕ))
    (t : ℚ) : PairingResult :=
  let small_v := (smallSet objA objB).map Prod.snd
  let large_v := (largeSet objA objB).map Prod.snd
  let small_co := (smallSet objA objB).map Prod.fst
  let large_co := (largeSet objA objB).map Prod.fst
  let limit := large_co.length - (large_co.length - small_co.length)
  let final := finalState d objA objB
  let threshold := round5 t
  let leastdists := final.leastdists.map round5
  let mask := leastdists.map (fun q => decide (q ≤ threshold))
  let dynamic_pointer_sorted := maskFilter mask (final.dynamic_pointer.take limit)
  { largeIds := dynamic_pointer_sorted.map (fun j => large_v.getD j 0)
    smallIds := maskFilter mask small_v
    threshold := threshold }

/-- The final consistency check of `main`: emit the selected pairs unless the
two identifier lists differ in length. -/
def finishResult [Inhabited P] (d : P → P → ℚ) (objA objB : List (P × ℕ))
    (t : ℚ) : Except String PairingResult :=
  if (buildResult d objA objB t).largeIds.length =
      (buildResult d objA objB t).smallIds.length
  then Except.ok (buildResult d objA objB t)
  else Except.error mismatchMsg

/-- Model of `main` from `contact.py`: relabel the two objects by size, run
the cyclic sweep, compute the threshold
`round(np.amax(np.sort(leastdists)[:samplesize]), 5)`, select the pairs
within the threshold, and fail when the two emitted lists differ in length.
The vertex-group writes are side effects outside the returned value and
happen only after every check has passed. -/
def mainModel [Inhabited P] (d : P → P → ℚ) (objA objB : List (P × ℕ))
    (samplesize : ℤ) : Except String PairingResult :=
  if objA.isEmpty ∨ objB.isEmpty then Except.error emptyMsg else
  match npAmax (pySlice (npSort (finalState d objA objB).leastdists) samplesize) with
  | Except.error e => Except.error e
  | Except.ok t => finishResult d objA objB t

/-- The spec's reference point for equal-size aligned inputs: direct
elementwise distance computation at offset 0. -/
def directElementwise [Inhabited P] (d : P → P → ℚ) (small large : List P) :
    List ℚ :=
  List.zipWith d small large

/-- Ascending sort of the rounded distances (claim C1's description of the
threshold's origin). -/
def sortedRounded (L : List ℚ) : List ℚ := npSort (L.map round5)

/-- Concrete rational-line metric used by the witnesses: the Euclidean
distance of two points that differ along a single axis. -/
def qd (a b : ℚ) : ℚ := |a - b|

/-! ### Basic facts about the rounding function -/

theorem round5_mono {a b : ℚ} (h : a ≤ b) : round5 a ≤ round5 b := by
  unfold round5
  have h1 : round (a * 100000) ≤ round (b * 100000) := by
    rw [round_eq, round_eq]
    exact Int.floor_le_floor (by linarith)
  have h2 : ((round (a * 100000) : ℤ) : ℚ) ≤ ((round (b * 100000) : ℤ) : ℚ) := by
    exact_mod_cast h1
  exact div_le_div_of_nonneg_right h2 (by norm_num) |>.trans_eq rfl

theorem round5_idem (q : ℚ) : round5 (round5 q) = round5 q := by
  unfold round5
  rw [div_mul_cancel₀ _ (by norm_num : (100000 : ℚ) ≠ 0), round_intCast]

/-! ### Facts about the array maximum -/

theorem npAmax_eq {l : List ℚ} (h : l ≠ []) : npAmax l = Except.ok (maxOfD l) := by
  cases l with
  | nil => exact absurd rfl h
  | cons x xs => rfl

theorem npAmax_error_msg {l : List ℚ} {e : String}
    (h : npAmax l = Except.error e) :
    e = "zero-size array to reduction operation maximum" ∧ l = [] := by
  cases l with
  | nil =>
    refine ⟨?_, rfl⟩
    simpa [npAmax] using h.symm
  | cons x xs => simp [npAmax] at h

theorem init_le_foldl_max : ∀ (t : List ℚ) (a : ℚ), a ≤ t.foldl max a := by
  intro t
  induction t with
  | nil => intro a; simp
  | cons h t ih =>
    intro a
    exact le_trans (le_max_left a h) (ih (max a h))

theorem mem_le_foldl_max : ∀ (t : List ℚ) (x : ℚ), x ∈ t → ∀ a, x ≤ t.foldl max a := by
  intro t
  induction t with
  | nil => intro x hx; exact absurd hx (List.not_mem_nil x)
  | cons h t ih =>
    intro x hx a
    rcases List.mem_cons.mp hx with rfl | hx
    · exact le_trans (le_max_right a x) (init_le_foldl_max t (max a x))
    · exact ih x hx (max a h)

theorem foldl_max_cases : ∀ (t : List ℚ) (a : ℚ), t.foldl max a = a ∨ t.foldl max a ∈ t := by
  intro t
  induction t with
  | nil => intro a; left; rfl
  | cons h t ih =>
    intro a
    rw [List.foldl_cons]
    rcases ih (max a h) with he | hm
    · rcases max_choice a h with h1 | h1
      · left; rw [he, h1]
      · right; rw [he, h1]; exact List.mem_cons_self h t
    · right; exact List.mem_cons_of_mem h hm

theorem le_maxOfD {l : List ℚ} {x : ℚ} (hx : x ∈ l) : x ≤ maxOfD l := by
  cases l with
  | nil => exact absurd hx (List.not_mem_nil x)
  | cons a t =>
    rcases List.mem_cons.mp hx with rfl | hx
    · exact init_le_foldl_max t x
    · exact mem_le_foldl_max t x hx a

theorem maxOfD_mem {l : List ℚ} (h : l ≠ []) : maxOfD l ∈ l := by
  cases l with
  | nil => exact absurd rfl h
  | cons a t =>
    rcases foldl_max_cases t a with he | hm
    · rw [maxOfD, he]; exact List.mem_cons_self a t
    · exact List.mem_cons_of_mem a hm

theorem maxOfD_le_of_sublist {l₁ l₂ : List ℚ} (hs : List.Sublist l₁ l₂)
    (h : l₁ ≠ []) : maxOfD l₁ ≤ maxOfD l₂ :=
  le_maxOfD (hs.subset (maxOfD_mem h))

theorem maxOfD_perm {l₁ l₂ : List ℚ} (hp : l₁.Perm l₂) (h : l₁ ≠ []) :
    maxOfD l₁ = maxOfD l₂ := by
  have h₂ : l₂ ≠ [] := by
    intro he
    exact h (List.eq_nil_of_length_eq_zero (by rw [hp.length_eq, he]; rfl))
  exact le_antisymm (le_maxOfD (hp.subset (maxOfD_mem h)))
    (le_maxOfD (hp.symm.subset (maxOfD_mem h₂)))

/-! ### Index lemmas for getD, getLastD, zipWith -/

theorem getD_map_lt {α β : Type} (f : α → β) : ∀ (l : List α) (i : ℕ), i < l.length →
    ∀ (d : β) (d' : α), (l.map f).getD i d = f (l.getD i d') := by
  intro l
  induction l with
  | nil => intro i hi; exact absurd hi (by simp)
  | cons a t ih =>
    intro i hi d d'
    cases i with
    | zero => rfl
    | succ j =>
      have hj : j < t.length := by simpa using hi
      simpa using ih j hj d d'

theorem getD_zipWith {α β γ : Type} (f : α → β → γ) :
    ∀ (l₁ : List α) (l₂ : List β) (i : ℕ), i < l₁.length → i < l₂.length →
    ∀ (d₁ : α) (d₂ : β) (d₃ : γ),
    (List.zipWith f l₁ l₂).getD i d₃ = f (l₁.getD i d₁) (l₂.getD i d₂) := by
  intro l₁
  induction l₁ with
  | nil => intro l₂ i hi; exact absurd hi (by simp)
  | cons a t ih =>
    intro l₂ i hi₂ hi d₁ d₂ d₃
    cases l₂ with
    | nil => exact absurd hi (by simp)
    | cons b s =>
      cases i with
      | zero => rfl
      | succ j =>
        have hj₁ : j < t.length := by simpa using hi₂
        have hj₂ : j < s.length := by simpa using hi
        simpa using ih s j hj₁ hj₂ d₁ d₂ d₃

theorem getD_zip {α β : Type} :
    ∀ (l₁ : List α) (l₂ : List β) (i : ℕ), i < l₁.length → i < l₂.length →
    ∀ (d₁ : α) (d₂ : β),
    (l₁.zip l₂).getD i (d₁, d₂) = (l₁.getD i d₁, l₂.getD i d₂) := by
  intro l₁ l₂ i h₁ h₂ d₁ d₂
  exact getD_zipWith Prod.mk l₁ l₂ i h₁ h₂ d₁ d₂ (d₁, d₂)

theorem getD_take_lt {α : Type} : ∀ (l : List α) (k i : ℕ), i < k →
    ∀ (d : α), (l.take k).getD i d = l.getD i d := by
  intro l
  induction l with
  | nil => intro k i hik d; simp
  | cons a t ih =>
    intro k i hik d
    cases k with
    | zero => exact absurd hik (by simp)
    | succ m =>
      cases i with
      | zero => rfl
      | succ j =>
        have hj : j < m := by omega
        simpa using ih m j hj d

theorem getLastD_cons_cons {α : Type} (a b : α) (s : List α) (d d' : α) :
    (a :: b :: s).getLastD d = (b :: s).getLastD d' := rfl

theorem getLastD_eq_getD : ∀ (l : List ℚ) (d : ℚ),
    l.getLastD d = l.getD (l.length - 1) d := by
  intro l
  induction l with
  | nil => intro d; rfl
  | cons a t ih =>
    intro d
    cases t with
    | nil => rfl
    | cons b s =>
      rw [getLastD_cons_cons a b s d d, ih d]
      have h2 : (a :: b :: s).length - 1 = ((b :: s).length - 1) + 1 := by simp
      rw [h2, List.getD_cons_succ]

theorem getLastD_mem {α : Type} : ∀ (l : List α), l ≠ [] → ∀ d, l.getLastD d ∈ l := by
  intro l
  induction l with
  | nil => intro h; exact absurd rfl h
  | cons a t ih =>
    intro _ d
    cases t with
    | nil => simp
    | cons b s =>
      rw [getLastD_cons_cons a b s d d]
      exact List.mem_cons_of_mem a (ih (by simp) d)

theorem sorted_le_getLastD : ∀ (l : List ℚ), l.Sorted (· ≤ ·) →
    ∀ x ∈ l, x ≤ l.getLastD 0 := by
  intro l
  induction l with
  | nil => intro _ x hx; exact absurd hx (List.not_mem_nil x)
  | cons a t ih =>
    intro hs x hx
    cases t with
    | nil =>
      rcases List.mem_cons.mp hx with rfl | hx
      · simp
      · exact absurd hx (List.not_mem_nil x)
    | cons b s =>
      rw [getLastD_cons_cons a b s 0 0]
      rcases List.mem_cons.mp hx with rfl | hx
      · have hmem : (b :: s).getLastD 0 ∈ b :: s := getLastD_mem (b :: s) (by simp) 0
        exact (List.sorted_cons.mp hs).1 _ hmem
      · exact ih (List.sorted_cons.mp hs).2 x hx

theorem maxOfD_sorted (l : List ℚ) (hs : l.Sorted (· ≤ ·)) (h : l ≠ []) :
    maxOfD l = l.getD (l.length - 1) 0 := by
  rw [← getLastD_eq_getD]
  exact le_antisymm
    (sorted_le_getLastD l hs _ (maxOfD_mem h))
    (le_maxOfD (getLastD_mem l h 0))

/-! ### Sorted lists, takes and the sample-size threshold -/

theorem sorted_npSort (l : List ℚ) : (npSort l).Sorted (· ≤ ·) :=
  List.sorted_insertionSort (· ≤ ·) l

theorem perm_npSort (l : List ℚ) : (npSort l).Perm l :=
  List.perm_insertionSort (· ≤ ·) l

theorem length_npSort (l : List ℚ) : (npSort l).length = l.length :=
  (perm_npSort l).length_eq

theorem sorted_getD_mono {l : List ℚ} (hs : l.Sorted (· ≤ ·)) {i j : ℕ}
    (hij : i ≤ j) (hj : j < l.length) : l.getD i 0 ≤ l.getD j 0 := by
  have hi : i < l.length := lt_of_le_of_lt hij hj
  rw [List.getD_eq_get l 0 hi, List.getD_eq_get l 0 hj]
  exact hs.rel_get_of_le hij

theorem maxOfD_take_sorted {l : List ℚ} (hs : l.Sorted (· ≤ ·)) {k : ℕ}
    (hk1 : 1 ≤ k) (hk : k ≤ l.length) :
    maxOfD (l.take k) = l.getD (k - 1) 0 := by
  have hlen : (l.take k).length = k := by
    rw [List.length_take]
    omega
  have hne : l.take k ≠ [] := by
    intro he
    rw [he] at hlen
    simp at hlen
    omega
  have hsort : (l.take k).Sorted (· ≤ ·) := hs.sublist (List.take_sublist k l)
  rw [maxOfD_sorted (l.take k) hsort hne, hlen, getD_take_lt l k (k - 1) (by omega) 0]

/-- Sorting commutes with mapping the monotone rounding function. -/
theorem npSort_map_round5 (l : List ℚ) :
    npSort (l.map round5) = (npSort l).map round5 := by
  have hs₁ : (npSort (l.map round5)).Sorted (· ≤ ·) := sorted_npSort _
  have hs₂ : ((npSort l).map round5).Sorted (· ≤ ·) := by
    exact List.Pairwise.map round5 (fun a b hab => round5_mono hab) (sorted_npSort l)
  have hp : (npSort (l.map round5)).Perm ((npSort l).map round5) :=
    (perm_npSort (l.map round5)).trans ((perm_npSort l).map round5).symm
  exact List.eq_of_perm_of_sorted hp hs₁ hs₂

/-- Characterization of the threshold scalar before rounding: with a positive
sample size it is the entry of the ascending sort at position
`min samplesize n - 1`. -/
theorem npAmax_pySlice_sorted {L : List ℚ} {s : ℤ} (hL : L ≠ []) (hs : 1 ≤ s) :
    npAmax (pySlice (npSort L) s) =
      Except.ok ((npSort L).getD (min s.toNat L.length - 1) 0) := by
  have hn : 1 ≤ L.length := List.length_pos.mpr hL
  have hslice : pySlice (npSort L) s = (npSort L).take s.toNat := by
    unfold pySlice
    rw [if_pos (by omega)]
  have htake : (npSort L).take s.toNat = (npSort L).take (min s.toNat L.length) := by
    rcases le_or_lt s.toNat L.length with h | h
    · rw [min_eq_left h]
    · rw [min_eq_right (le_of_lt h)]
      rw [List.take_of_length_le (by rw [length_npSort]; exact le_of_lt h)]
      rw [List.take_of_length_le (by rw [length_npSort])]
  have hst : 1 ≤ s.toNat := by
    have h := Int.toNat_le_toNat hs
    simpa using h
  have hk1 : 1 ≤ min s.toNat L.length := le_min hst hn
  have hkn : min s.toNat L.length ≤ (npSort L).length := by
    rw [length_npSort]
    exact min_le_right _ _
  have hne : (npSort L).take (min s.toNat L.length) ≠ [] := by
    intro he
    rcases List.take_eq_nil_iff.mp he with h0 | h0
    · omega
    · have := length_npSort L
      rw [h0] at this
      simp at this
      omega
  rw [hslice, htake, npAmax_eq hne,
    maxOfD_take_sorted (sorted_npSort L) hk1 hkn]

/-! ### Elementwise characterization of the strict-improvement updates -/

theorem length_updLD (old new : List ℚ) :
    (updLD old new).length = min old.length new.length := by
  unfold updLD
  exact List.length_zipWith _ _ _

theorem length_updDP (old new : List ℚ) (dp win : List ℕ) :
    (updDP old new dp win).length =
      min (min old.length new.length) (min dp.length win.length) := by
  unfold updDP
  simp [List.length_zipWith, List.length_zip]

theorem getD_updLD {old new : List ℚ} {i : ℕ}
    (h₁ : i < old.length) (h₂ : i < new.length) :
    (updLD old new).getD i 0 =
      if new.getD i 0 < old.getD i 0 then new.getD i 0 else old.getD i 0 := by
  unfold updLD
  exact getD_zipWith _ old new i h₁ h₂ 0 0 0

theorem getD_updDP {old new : List ℚ} {dp win : List ℕ} {i : ℕ}
    (h₁ : i < old.length) (h₂ : i < new.length)
    (h₃ : i < dp.length) (h₄ : i < win.length) :
    (updDP old new dp win).getD i 0 =
      if new.getD i 0 < old.getD i 0 then win.getD i 0 else dp.getD i 0 := by
  unfold updDP
  have hz₁ : i < (old.zip new).length := by
    rw [List.length_zip]; omega
  have hz₂ : i < (dp.zip win).length := by
    rw [List.length_zip]; omega
  rw [getD_zipWith _ (old.zip new) (dp.zip win) i hz₁ hz₂ (0, 0) (0, 0) 0,
    getD_zip old new i h₁ h₂ 0 0, getD_zip dp win i h₃ h₄ 0 0]

theorem strict_if_eq_min (a b : ℚ) : (if b < a then b else a) = min a b := by
  rcases lt_or_ge b a with h | h
  · rw [if_pos h, min_eq_right (le_of_lt h)]
  · rw [if_neg (not_lt.mpr h), min_eq_left h]

theorem updLD_eq_self : ∀ (old new : List ℚ), old.length ≤ new.length →
    (∀ i, i < old.length → old.getD i 0 ≤ new.getD i 0) →
    updLD old new = old := by
  intro old
  induction old with
  | nil => intro new _ _; rfl
  | cons o os ih =>
    intro new hlen hle
    cases new with
    | nil => simp at hlen
    | cons v vs =>
      have h0 : o ≤ v := by simpa using hle 0 (by simp)
      have htail : updLD os vs = os := by
        refine ih vs (by simpa using hlen) ?_
        intro i hi
        simpa using hle (i + 1) (by simpa using Nat.succ_lt_succ hi)
      calc updLD (o :: os) (v :: vs)
          = (if v < o then v else o) :: updLD os vs := rfl
        _ = o :: os := by rw [if_neg (not_lt.mpr h0), htail]

theorem updDP_eq_self : ∀ (dp : List ℕ) (old new : List ℚ) (win : List ℕ),
    old.length = dp.length → dp.length ≤ new.length → dp.length ≤ win.length →
    (∀ i, i < dp.length → old.getD i 0 ≤ new.getD i 0) →
    updDP old new dp win = dp := by
  intro dp
  induction dp with
  | nil =>
    intro old new win hlen _ _ _
    have : old = [] := List.eq_nil_of_length_eq_zero (by simpa using hlen)
    subst this
    rfl
  | cons p ps ih =>
    intro old new win hlen hn hw hle
    cases old with
    | nil => simp at hlen
    | cons o os =>
      cases new with
      | nil => simp at hn
      | cons v vs =>
        cases win with
        | nil => simp at hw
        | cons w ws =>
          have h0 : o ≤ v := by simpa using hle 0 (by simp)
          have htail : updDP os vs ps ws = ps := by
            refine ih os vs ws (by simpa using hlen) (by simpa using hn)
              (by simpa using hw) ?_
            intro i hi
            simpa using hle (i + 1) (by simpa using Nat.succ_lt_succ hi)
          calc updDP (o :: os) (v :: vs) (p :: ps) (w :: ws)
              = (if v < o then w else p) :: updDP os vs ps ws := rfl
            _ = p :: ps := by rw [if_neg (not_lt.mpr h0), htail]

/-! ### Facts about boolean-mask selection -/

theorem maskFilter_nil_left {α : Type} (l : List α) : maskFilter [] l = [] := rfl

theorem maskFilter_nil_right {α : Type} (mask : List Bool) :
    maskFilter mask ([] : List α) = [] := by
  cases mask <;> rfl

theorem maskFilter_cons {α : Type} (b : Bool) (bs : List Bool) (x : α) (xs : List α) :
    maskFilter (b :: bs) (x :: xs) =
      if b then x :: maskFilter bs xs else maskFilter bs xs := by
  cases b <;> simp [maskFilter, List.filter_cons]

theorem maskFilter_length : ∀ (mask : List Bool) {α : Type} (l : List α),
    mask.length = l.length →
    (maskFilter mask l).length = mask.countP (fun b => b) := by
  intro mask
  induction mask with
  | nil => intro α l _; rfl
  | cons b bs ih =>
    intro α l hlen
    cases l with
    | nil => simp at hlen
    | cons x xs =>
      rw [maskFilter_cons]
      cases b with
      | true =>
        rw [if_pos rfl, List.length_cons, ih xs (by simpa using hlen)]
        simp [List.countP_cons]
      | false =>
        rw [if_neg (by simp), ih xs (by simpa using hlen)]
        simp [List.countP_cons]

theorem maskFilter_map {α β : Type} (f : α → β) :
    ∀ (mask : List Bool) (l : List α),
    maskFilter mask (l.map f) = (maskFilter mask l).map f := by
  intro mask
  induction mask with
  | nil => intro l; rfl
  | cons b bs ih =>
    intro l
    cases l with
    | nil => simp [maskFilter_nil_right]
    | cons x xs =>
      rw [List.map_cons, maskFilter_cons, maskFilter_cons]
      cases b with
      | true => simp [ih xs]
      | false => simp [ih xs]

theorem maskFilter_zip {α β : Type} :
    ∀ (mask : List Bool) (l₁ : List α) (l₂ : List β),
    l₁.length = l₂.length →
    (maskFilter mask l₁).zip (maskFilter mask l₂) = maskFilter mask (l₁.zip l₂) := by
  intro mask
  induction mask with
  | nil => intro l₁ l₂ _; rfl
  | cons b bs ih =>
    intro l₁ l₂ hlen
    cases l₁ with
    | nil =>
      have : l₂ = [] := List.eq_nil_of_length_eq_zero (by simpa using hlen.symm)
      subst this
      rfl
    | cons x xs =>
      cases l₂ with
      | nil => simp at hlen
      | cons y ys =>
        rw [List.zip_cons_cons, maskFilter_cons, maskFilter_cons, maskFilter_cons]
        cases b with
        | true => simp [ih xs ys (by simpa using hlen)]
        | false => simp [ih xs ys (by simpa using hlen)]

theorem maskFilter_eq_filter_range {α : Type} (dflt : α) :
    ∀ (mask : List Bool) (l : List α), mask.length = l.length →
    maskFilter mask l =
      ((List.range l.length).filter (fun i => mask.getD i false)).map
        (fun i => l.getD i dflt) := by
  intro mask
  induction mask with
  | nil =>
    intro l hlen
    have : l = [] := List.eq_nil_of_length_eq_zero (by simpa using hlen.symm)
    subst this
    rfl
  | cons b bs ih =>
    intro l hlen
    cases l with
    | nil => simp at hlen
    | cons x xs =>
      rw [maskFilter_cons]
      have hrange : List.range (x :: xs).length = 0 :: (List.range xs.length).map Nat.succ := by
        rw [List.length_cons]
        exact List.range_succ_eq_map xs.length
      have hmapfil : ((List.range xs.length).map Nat.succ).filter
            (fun i => (b :: bs).getD i false)
          = ((List.range xs.length).filter (fun i => bs.getD i false)).map Nat.succ := by
        rw [List.map_filter Nat.succ (List.range xs.length)]
        rfl
      have hmapmap : ∀ (r : List ℕ),
          (r.map Nat.succ).map (fun i => (x :: xs).getD i dflt)
            = r.map (fun i => xs.getD i dflt) := by
        intro r
        rw [List.map_map]
        rfl
      rw [hrange, List.filter_cons]
      cases b with
      | true =>
        rw [if_pos rfl, if_pos (show (true :: bs).getD 0 false = true from rfl),
          hmapfil, List.map_cons, hmapmap, ih xs (by simpa using hlen)]
        rfl
      | false =>
        rw [if_neg (by simp), if_neg (show ¬(false :: bs).getD 0 false = true by simp),
          hmapfil, hmapmap, ih xs (by simpa using hlen)]

/-! ### The search loop: rolled pointer, lengths, one-step characterization -/

theorem sweepN_zero {P : Type} [Inhabited P] (d : P → P → ℚ) (small large : List P)
    (m limit : ℕ) : sweepN d small large m limit 0 = initState d small large m limit := rfl

theorem sweepN_succ {P : Type} [Inhabited P] (d : P → P → ℚ) (small large : List P)
    (m limit k : ℕ) :
    sweepN d small large m limit (k + 1) =
      sweepStep d small large limit (sweepN d small large m limit k) :=
  Function.iterate_succ_apply' (sweepStep d small large limit) k _

theorem sweepStep_rolling {P : Type} [Inhabited P] (d : P → P → ℚ)
    (small large : List P) (limit : ℕ) (st : SweepState) :
    (sweepStep d small large limit st).rolling_pointer =
      st.rolling_pointer.rotate 1 := rfl

theorem sweepStep_leastdists {P : Type} [Inhabited P] (d : P → P → ℚ)
    (small large : List P) (limit : ℕ) (st : SweepState) :
    (sweepStep d small large limit st).leastdists =
      updLD st.leastdists
        (distsTo d small large ((st.rolling_pointer.rotate 1).take limit)) := rfl

theorem sweepStep_dynamic {P : Type} [Inhabited P] (d : P → P → ℚ)
    (small large : List P) (limit : ℕ) (st : SweepState) :
    (sweepStep d small large limit st).dynamic_pointer =
      updDP st.leastdists
        (distsTo d small large ((st.rolling_pointer.rotate 1).take limit))
        st.dynamic_pointer ((st.rolling_pointer.rotate 1).take limit) := rfl

theorem sweepN_rolling {P : Type} [Inhabited P] (d : P → P → ℚ) (small large : List P)
    (m limit : ℕ) : ∀ k, (sweepN d small large m limit k).rolling_pointer =
      (List.range m).rotate k := by
  intro k
  induction k with
  | zero => rw [sweepN_zero, List.rotate_zero]; rfl
  | succ k ih =>
    rw [sweepN_succ, sweepStep_rolling, ih, List.rotate_rotate]

theorem length_distsTo {P : Type} [Inhabited P] (d : P → P → ℚ)
    (small large : List P) (win : List ℕ) :
    (distsTo d small large win).length = min small.length win.length := by
  unfold distsTo
  exact List.length_zipWith _ _ _

theorem sweepN_lengths {P : Type} [Inhabited P] (d : P → P → ℚ) (small large : List P)
    (m limit : ℕ) (hsm : small.length = limit) (hlm : limit ≤ m) :
    ∀ k, (sweepN d small large m limit k).leastdists.length = limit ∧
      (sweepN d small large m limit k).dynamic_pointer.length = limit := by
  have hwin : ∀ k, (((List.range m).rotate k).take limit).length = limit := by
    intro k
    rw [List.length_take, List.length_rotate, List.length_range]
    omega
  intro k
  induction k with
  | zero =>
    constructor
    · show (distsTo d small large ((List.range m).take limit)).length = limit
      rw [length_distsTo, hsm]
      have h0 : (List.range m).take limit = ((List.range m).rotate 0).take limit := by
        rw [List.rotate_zero]
      rw [h0, hwin 0]
      exact min_self limit
    · show ((List.range m).take limit).length = limit
      rw [List.length_take, List.length_range]
      omega
  | succ k ih =>
    rw [sweepN_succ]
    have hroll : ((sweepN d small large m limit k).rolling_pointer.rotate 1) =
        (List.range m).rotate (k + 1) := by
      rw [sweepN_rolling, List.rotate_rotate]
    constructor
    · rw [sweepStep_leastdists, length_updLD, hroll, ih.1, length_distsTo, hsm, hwin]
      simp
    · rw [sweepStep_dynamic, length_updDP, hroll, ih.1, ih.2, length_distsTo, hsm, hwin]
      simp

/-- One loop pass, elementwise on the best distances: a strictly smaller new
distance replaces the incumbent, anything else leaves it in place. -/
theorem sweepN_least_succ_getD {P : Type} [Inhabited P] (d : P → P → ℚ)
    (small large : List P) (m limit k i : ℕ)
    (hsm : small.length = limit) (hlm : limit ≤ m) (hi : i < limit) :
    (sweepN d small large m limit (k + 1)).leastdists.getD i 0 =
      if (distsTo d small large (((List.range m).rotate (k + 1)).take limit)).getD i 0 <
          (sweepN d small large m limit k).leastdists.getD i 0
      then (distsTo d small large (((List.range m).rotate (k + 1)).take limit)).getD i 0
      else (sweepN d small large m limit k).leastdists.getD i 0 := by
  have hroll : ((sweepN d small large m limit k).rolling_pointer.rotate 1) =
      (List.range m).rotate (k + 1) := by
    rw [sweepN_rolling, List.rotate_rotate]
  have hwinlen : (((List.range m).rotate (k + 1)).take limit).length = limit := by
    rw [List.length_take, List.length_rotate, List.length_range]
    omega
  have hold : i < (sweepN d small large m limit k).leastdists.length := by
    rw [(sweepN_lengths d small large m limit hsm hlm k).1]
    exact hi
  have hnew : i < (distsTo d small large (((List.range m).rotate (k + 1)).take limit)).length := by
    rw [length_distsTo, hsm, hwinlen]
    simpa using hi
  rw [sweepN_succ, sweepStep_leastdists, hroll]
  exact getD_updLD hold hnew

/-- One loop pass, elementwise on the partner pointers: the pointer moves to
the rolled window index exactly where the new distance is strictly smaller. -/
theorem sweepN_dyn_succ_getD {P : Type} [Inhabited P] (d : P → P → ℚ)
    (small large : List P) (m limit k i : ℕ)
    (hsm : small.length = limit) (hlm : limit ≤ m) (hi : i < limit) :
    (sweepN d small large m limit (k + 1)).dynamic_pointer.getD i 0 =
      if (distsTo d small large (((List.range m).rotate (k + 1)).take limit)).getD i 0 <
          (sweepN d small large m limit k).leastdists.getD i 0
      then ((((List.range m).rotate (k + 1)).take limit)).getD i 0
      else (sweepN d small large m limit k).dynamic_pointer.getD i 0 := by
  have hroll : ((sweepN d small large m limit k).rolling_pointer.rotate 1) =
      (List.range m).rotate (k + 1) := by
    rw [sweepN_rolling, List.rotate_rotate]
  have hwinlen : (((List.range m).rotate (k + 1)).take limit).length = limit := by
    rw [List.length_take, List.length_rotate, List.length_range]
    omega
  have hold : i < (sweepN d small large m limit k).leastdists.length := by
    rw [(sweepN_lengths d small large m limit hsm hlm k).1]
    exact hi
  have hdyn : i < (sweepN d small large m limit k).dynamic_pointer.length := by
    rw [(sweepN_lengths d small large m limit hsm hlm k).2]
    exact hi
  have hnew : i < (distsTo d small large (((List.range m).rotate (k + 1)).take limit)).length := by
    rw [length_distsTo, hsm, hwinlen]
    simpa using hi
  have hwin : i < ((((List.range m).rotate (k + 1)).take limit)).length := by
    rw [hwinlen]
    exact hi
  rw [sweepN_succ, sweepStep_dynamic, hroll]
  exact getD_updDP hold hnew hdyn hwin

/-! ### The full sweep as a minimum over all offsets -/

theorem minOfD_append_singleton (l : List ℚ) (a : ℚ) (h : l ≠ []) :
    minOfD (l ++ [a]) = min (minOfD l) a := by
  cases l with
  | nil => exact absurd rfl h
  | cons x t =>
    show ((t ++ [a]).foldl min x) = min (t.foldl min x) a
    rw [List.foldl_append]
    rfl

theorem offsetDists_def {P : Type} [Inhabited P] (d : P → P → ℚ)
    (small large : List P) (k : ℕ) :
    offsetDists d small large k =
      distsTo d small large (((List.range large.length).rotate k).take small.length) := rfl

theorem sweepN_least_eq_min {P : Type} [Inhabited P] (d : P → P → ℚ)
    (small large : List P) (hlm : small.length ≤ large.length) :
    ∀ k i, i < small.length →
      (sweepN d small large large.length small.length k).leastdists.getD i 0 =
        minOfD ((List.range (k + 1)).map
          (fun j => (offsetDists d small large j).getD i 0)) := by
  intro k
  induction k with
  | zero =>
    intro i hi
    have h1 : List.range 1 = [0] := rfl
    rw [h1, List.map_cons, List.map_nil]
    show (sweepN d small large large.length small.length 0).leastdists.getD i 0 =
      (offsetDists d small large 0).getD i 0
    rw [sweepN_zero, offsetDists_def, List.rotate_zero]
    rfl
  | succ k ih =>
    intro i hi
    rw [sweepN_least_succ_getD d small large large.length small.length k i rfl hlm hi,
      strict_if_eq_min, ih i hi]
    have hne : (List.range (k + 1)).map
        (fun j => (offsetDists d small large j).getD i 0) ≠ [] := by
      intro he
      have := congrArg List.length he
      simp at this
    conv_rhs => rw [List.range_succ, List.map_append, List.map_cons, List.map_nil]
    rw [minOfD_append_singleton _ _ hne]
    rfl

/-! ### Equal-size aligned inputs: the sweep never moves off offset 0 -/

theorem distsTo_range {P : Type} [Inhabited P] (d : P → P → ℚ) :
    ∀ (small large : List P), small.length ≤ large.length →
    distsTo d small large (List.range small.length) = List.zipWith d small large := by
  intro small
  induction small with
  | nil => intro large _; rfl
  | cons p ps ih =>
    intro large hle
    cases large with
    | nil => simp at hle
    | cons q qs =>
      have hr : List.range (p :: ps).length = 0 :: (List.range ps.length).map Nat.succ := by
        rw [List.length_cons]
        exact List.range_succ_eq_map ps.length
      rw [hr]
      show d p ((q :: qs).getD 0 default) ::
          List.zipWith (fun a j => d a ((q :: qs).getD j default)) ps
            ((List.range ps.length).map Nat.succ)
        = d p q :: List.zipWith d ps qs
      congr 1
      rw [List.zipWith_map_right]
      have hfun : (fun (a : P) (b : ℕ) => d a ((q :: qs).getD (Nat.succ b) default)) =
          fun (a : P) (b : ℕ) => d a (qs.getD b default) := rfl
      rw [hfun]
      exact ih qs (by simpa using hle)

theorem offsetDists_zero_eq_direct {P : Type} [Inhabited P] (d : P → P → ℚ)
    (small large : List P) (h : small.length ≤ large.length) :
    offsetDists d small large 0 = directElementwise d small large := by
  rw [offsetDists_def, List.rotate_zero, List.take_range, min_eq_left h]
  exact distsTo_range d small large h

theorem sweepN_stays {P : Type} [Inhabited P] (d : P → P → ℚ)
    (small large : List P) (heq : small.length = large.length)
    (hopt : ∀ i, i < small.length → ∀ j, j < large.length →
      (offsetDists d small large 0).getD i 0 ≤ (offsetDists d small large j).getD i 0) :
    ∀ k, k < large.length →
      (sweepN d small large large.length small.length k).leastdists =
        offsetDists d small large 0 ∧
      (sweepN d small large large.length small.length k).dynamic_pointer =
        List.range small.length := by
  have hlenwin : ∀ j, ((((List.range large.length).rotate j).take small.length)).length =
      small.length := by
    intro j
    rw [List.length_take, List.length_rotate, List.length_range]
    omega
  have hlen0 : (offsetDists d small large 0).length = small.length := by
    rw [offsetDists_def, length_distsTo, hlenwin 0]
    exact min_self _
  have hlenj : ∀ j, (offsetDists d small large j).length = small.length := by
    intro j
    rw [offsetDists_def, length_distsTo, hlenwin j]
    exact min_self _
  intro k
  induction k with
  | zero =>
    intro _
    constructor
    · rw [sweepN_zero, offsetDists_def, List.rotate_zero]
      rfl
    · rw [sweepN_zero]
      show (List.range large.length).take small.length = List.range small.length
      rw [List.take_range, min_eq_left (le_of_eq heq)]
    -- the initial dynamic pointer is the identity window
  | succ k ih =>
    intro hk1
    have hk : k < large.length := Nat.lt_of_succ_lt hk1
    obtain ⟨ihL, ihD⟩ := ih hk
    have hroll : ((sweepN d small large large.length small.length k).rolling_pointer.rotate 1) =
        (List.range large.length).rotate (k + 1) := by
      rw [sweepN_rolling, List.rotate_rotate]
    have hnewd : distsTo d small large
        (((sweepN d small large large.length small.length k).rolling_pointer.rotate 1).take
          small.length) = offsetDists d small large (k + 1) := by
      rw [hroll, offsetDists_def]
    have hpoint : ∀ i, i < small.length →
        (offsetDists d small large 0).getD i 0 ≤
          (offsetDists d small large (k + 1)).getD i 0 := by
      intro i hi
      exact hopt i hi (k + 1) hk1
    constructor
    · rw [sweepN_succ, sweepStep_leastdists, ihL, hnewd]
      refine updLD_eq_self _ _ ?_ ?_
      · rw [hlen0, hlenj]
      · intro i hi
        rw [hlen0] at hi
        exact hpoint i hi
    · rw [sweepN_succ, sweepStep_dynamic, ihL, ihD, hnewd, hroll]
      refine updDP_eq_self _ _ _ _ ?_ ?_ ?_ ?_
      · rw [hlen0, List.length_range]
      · rw [List.length_range, hlenj]
      · rw [List.length_range, hlenwin]
      · intro i hi
        rw [List.length_range] at hi
        exact hpoint i hi

/-! ### Putting the driver together -/

theorem smallSet_length_le {P : Type} (objA objB : List (P × ℕ)) :
    (smallSet objA objB).length ≤ (largeSet objA objB).length := by
  unfold smallSet largeSet
  split
  · exact le_of_lt (by assumption)
  · exact le_of_not_lt (by assumption)

theorem smallSet_ne_nil {P : Type} {objA objB : List (P × ℕ)}
    (hA : objA ≠ []) (hB : objB ≠ []) : smallSet objA objB ≠ [] := by
  unfold smallSet
  split
  · exact hA
  · exact hB

theorem largeSet_ne_nil {P : Type} {objA objB : List (P × ℕ)}
    (hA : objA ≠ []) (hB : objB ≠ []) : largeSet objA objB ≠ [] := by
  unfold largeSet
  split
  · exact hB
  · exact hA

theorem finalState_eq {P : Type} [Inhabited P] (d : P → P → ℚ)
    (objA objB : List (P × ℕ)) :
    finalState d objA objB =
      sweepN d ((smallSet objA objB).map Prod.fst) ((largeSet objA objB).map Prod.fst)
        ((largeSet objA objB).length) ((smallSet objA objB).length)
        ((largeSet objA objB).length - 1) := by
  have h : ((smallSet objA objB).map Prod.fst).length ≤
      ((largeSet objA objB).map Prod.fst).length := by
    rw [List.length_map, List.length_map]
    exact smallSet_length_le objA objB
  simp only [finalState]
  rw [Nat.sub_sub_self h, Nat.add_sub_cancel' h, List.length_map, List.length_map]

theorem finalState_lengths {P : Type} [Inhabited P] (d : P → P → ℚ)
    (objA objB : List (P × ℕ)) :
    (finalState d objA objB).leastdists.length = (smallSet objA objB).length ∧
    (finalState d objA objB).dynamic_pointer.length = (smallSet objA objB).length := by
  rw [finalState_eq]
  have h := sweepN_lengths d ((smallSet objA objB).map Prod.fst)
    ((largeSet objA objB).map Prod.fst) ((largeSet objA objB).length)
    ((smallSet objA objB).length) (by rw [List.length_map])
    (smallSet_length_le objA objB) ((largeSet objA objB).length - 1)
  exact h

theorem buildResult_threshold {P : Type} [Inhabited P] (d : P → P → ℚ)
    (objA objB : List (P × ℕ)) (t : ℚ) :
    (buildResult d objA objB t).threshold = round5 t := rfl

theorem buildResult_smallIds {P : Type} [Inhabited P] (d : P → P → ℚ)
    (objA objB : List (P × ℕ)) (t : ℚ) :
    (buildResult d objA objB t).smallIds =
      maskFilter (((finalState d objA objB).leastdists.map round5).map
          (fun q => decide (q ≤ round5 t)))
        ((smallSet objA objB).map Prod.snd) := rfl

theorem buildResult_largeIds {P : Type} [Inhabited P] (d : P → P → ℚ)
    (objA objB : List (P × ℕ)) (t : ℚ) :
    (buildResult d objA objB t).largeIds =
      (maskFilter (((finalState d objA objB).leastdists.map round5).map
          (fun q => decide (q ≤ round5 t)))
        ((finalState d objA objB).dynamic_pointer.take
          (((largeSet objA objB).map Prod.fst).length -
            ((((largeSet objA objB).map Prod.fst).length) -
              (((smallSet objA objB).map Prod.fst).length))))).map
        (fun j => ((largeSet objA objB).map Prod.snd).getD j 0) := rfl

theorem buildResult_lengths {P : Type} [Inhabited P] (d : P → P → ℚ)
    (objA objB : List (P × ℕ)) (t : ℚ) :
    (buildResult d objA objB t).largeIds.length =
      (buildResult d objA objB t).smallIds.length := by
  have hlim : (((largeSet objA objB).map Prod.fst).length -
      ((((largeSet objA objB).map Prod.fst).length) -
        (((smallSet objA objB).map Prod.fst).length))) = (smallSet objA objB).length := by
    rw [List.length_map, List.length_map]
    exact Nat.sub_sub_self (smallSet_length_le objA objB)
  have hmask : (((finalState d objA objB).leastdists.map round5).map
      (fun q => decide (q ≤ round5 t))).length = (smallSet objA objB).length := by
    rw [List.length_map, List.length_map]
    exact (finalState_lengths d objA objB).1
  have hdp : ((finalState d objA objB).dynamic_pointer.take
      (((largeSet objA objB).map Prod.fst).length -
        ((((largeSet objA objB).map Prod.fst).length) -
          (((smallSet objA objB).map Prod.fst).length)))).length =
      (smallSet objA objB).length := by
    rw [hlim, List.length_take, (finalState_lengths d objA objB).2]
    exact min_self _
  rw [buildResult_largeIds, buildResult_smallIds, List.length_map,
    maskFilter_length _ _ (by rw [hmask, hdp]),
    maskFilter_length _ _ (by rw [hmask, List.length_map])]

theorem mainModel_ok_eq {P : Type} [Inhabited P] (d : P → P → ℚ)
    {objA objB : List (P × ℕ)} {s : ℤ} {t : ℚ}
    (hA : objA ≠ []) (hB : objB ≠ [])
    (ht : npAmax (pySlice (npSort (finalState d objA objB).leastdists) s) =
      Except.ok t) :
    mainModel d objA objB s = Except.ok (buildResult d objA objB t) := by
  have hne : ¬(objA.isEmpty ∨ objB.isEmpty) := by
    simp [hA, hB]
  unfold mainModel
  rw [if_neg hne, ht]
  show finishResult d objA objB t = _
  unfold finishResult
  rw [if_pos (buildResult_lengths d objA objB t)]

set_option maxHeartbeats 1000000 in
theorem mainModel_ok_inv {P : Type} [Inhabited P] {d : P → P → ℚ}
    {objA objB : List (P × ℕ)} {s : ℤ} {r : PairingResult}
    (h : mainModel d objA objB s = Except.ok r) :
    objA ≠ [] ∧ objB ≠ [] ∧
    ∃ t, npAmax (pySlice (npSort (finalState d objA objB).leastdists) s) =
        Except.ok t ∧ r = buildResult d objA objB t := by
  by_cases hemp : (objA.isEmpty ∨ objB.isEmpty)
  · unfold mainModel at h
    rw [if_pos hemp] at h
    simp at h
  · have hA : objA ≠ [] := by
      intro he
      exact (not_or.mp hemp).1 (by simp [he])
    have hB : objB ≠ [] := by
      intro he
      exact (not_or.mp hemp).2 (by simp [he])
    unfold mainModel at h
    rw [if_neg hemp] at h
    cases hamax : npAmax (pySlice (npSort (finalState d objA objB).leastdists) s) with
    | error e =>
      rw [hamax] at h
      simp at h
    | ok t =>
      rw [hamax] at h
      have h' : finishResult d objA objB t = Except.ok r := h
      unfold finishResult at h'
      rw [if_pos (buildResult_lengths d objA objB t)] at h'
      refine ⟨hA, hB, t, rfl, ?_⟩
      injection h' with h''
      exact h''.symm

theorem mainModel_error_empty {P : Type} [Inhabited P] (d : P → P → ℚ)
    {objA objB : List (P × ℕ)} (s : ℤ) (hemp : objA = [] ∨ objB = []) :
    mainModel d objA objB s = Except.error emptyMsg := by
  unfold mainModel
  rw [if_pos]
  rcases hemp with he | he
  · left; simp [he]
  · right; simp [he]

theorem mainModel_error_amax {P : Type} [Inhabited P] (d : P → P → ℚ)
    {objA objB : List (P × ℕ)} {s : ℤ} {e : String}
    (hA : objA ≠ []) (hB : objB ≠ [])
    (he : npAmax (pySlice (npSort (finalState d objA objB).leastdists) s) =
      Except.error e) :
    mainModel d objA objB s = Except.error e := by
  have hne : ¬(objA.isEmpty ∨ objB.isEmpty) := by
    simp [hA, hB]
  unfold mainModel
  rw [if_neg hne, he]

theorem pySlice_zero {α : Type} (l : List α) : pySlice l 0 = [] := by
  unfold pySlice
  rw [if_pos le_rfl]
  rfl

theorem pySlice_neg_nil {α : Type} (l : List α) {s : ℤ} (hs : s < 0)
    (h : (l.length : ℤ) + s ≤ 0) : pySlice l s = [] := by
  unfold pySlice
  rw [if_neg (not_le.mpr hs), Int.toNat_of_nonpos h]
  rfl

theorem finalState_leastdists_ne_nil {P : Type} [Inhabited P] (d : P → P → ℚ)
    {objA objB : List (P × ℕ)} (hA : objA ≠ []) (hB : objB ≠ []) :
    (finalState d objA objB).leastdists ≠ [] := by
  intro he
  have hlen := (finalState_lengths d objA objB).1
  rw [he] at hlen
  have hpos : 0 < (smallSet objA objB).length :=
    List.length_pos.mpr (smallSet_ne_nil hA hB)
  rw [← hlen] at hpos
  simp at hpos

/-- The scalar that `main` rounds into the threshold: for a positive sample
size it is the sorted distance at position `min samplesize n - 1`. -/
theorem mainModel_threshold_eq {P : Type} [Inhabited P] {d : P → P → ℚ}
    {objA objB : List (P × ℕ)} {s : ℤ} {r : PairingResult}
    (hs : 1 ≤ s) (h : mainModel d objA objB s = Except.ok r) :
    r.threshold = round5 ((npSort (finalState d objA objB).leastdists).getD
      (min s.toNat (finalState d objA objB).leastdists.length - 1) 0) := by
  obtain ⟨hA, hB, t, hamax, hr⟩ := mainModel_ok_inv h
  have hLne := finalState_leastdists_ne_nil d hA hB
  have hform := npAmax_pySlice_sorted hLne hs
  rw [hamax] at hform
  injection hform with ht
  rw [hr, buildResult_threshold, ht]

/-! ### Concrete instances used by the witnesses -/

unseal Rat.mul Rat.add Rat.sub Rat.inv

/-- Three collinear points with identifiers 0, 1, 2. -/
def exC : List (ℚ × ℕ) := [(0, 0), (10, 1), (21, 2)]

/-- Two collinear points with identifiers 11, 12. -/
def exD : List (ℚ × ℕ) := [(1, 11), (12, 12)]

/-- Two coincident points with identifiers 0, 1. -/
def tieA : List (ℚ × ℕ) := [(0, 0), (0, 1)]

/-- Two coincident points with identifiers 10, 11. -/
def tieB : List (ℚ × ℕ) := [(0, 10), (0, 11)]

/-- Two aligned points with identifiers 0, 1. -/
def alignA : List (ℚ × ℕ) := [(0, 0), (10, 1)]

/-- Two aligned points with identifiers 5, 6. -/
def alignB : List (ℚ × ℕ) := [(0, 5), (10, 6)]

/-! ### The claims -/

/-- C2: whenever the matcher returns an output pairing, its two identifier
lists have the same length; a mismatch can only surface as the explicit
error, never as a silently truncated result. -/
theorem c2_output_lists_equal_length {P : Type} [Inhabited P] (d : P → P → ℚ)
    (objA objB : List (P × ℕ)) (s : ℤ) (r : PairingResult)
    (h : mainModel d objA objB s = Except.ok r) :
    r.largeIds.length = r.smallIds.length := by
  obtain ⟨_, _, t, _, hr⟩ := mainModel_ok_inv h
  rw [hr]
  exact buildResult_lengths d objA objB t

/-- Witness for C2 at a concrete input: three points against two points,
sample size 1. -/
theorem c2_witness :
    mainModel qd exC exD 1 = Except.ok ⟨[0], [11], 1⟩ ∧
    (PairingResult.mk [0] [11] 1).largeIds.length =
      (PairingResult.mk [0] [11] 1).smallIds.length := by
  refine ⟨by rfl, ?_⟩
  exact c2_output_lists_equal_length qd exC exD 1 ⟨[0], [11], 1⟩ (by rfl)

/-- C9: the post-hoc length-mismatch error branch of `main` is unreachable:
both emitted identifier lists come from the same boolean mask, so for no
input does the matcher return the mismatch error. -/
theorem c9_length_mismatch_unreachable {P : Type} [Inhabited P] (d : P → P → ℚ)
    (objA objB : List (P × ℕ)) (s : ℤ) :
    (mainModel d objA objB s = Except.error mismatchMsg) = False := by
  apply eq_false
  intro h
  unfold mainModel at h
  by_cases hemp : (objA.isEmpty ∨ objB.isEmpty)
  · rw [if_pos hemp] at h
    have he : emptyMsg = mismatchMsg := by injection h
    exact absurd he (by decide)
  · rw [if_neg hemp] at h
    cases hamax : npAmax (pySlice (npSort (finalState d objA objB).leastdists) s) with
    | error e =>
      rw [hamax] at h
      have h' : Except.error (α := PairingResult) e = Except.error mismatchMsg := h
      have he : e = mismatchMsg := by injection h'
      have hmsg := (npAmax_error_msg hamax).1
      rw [hmsg] at he
      exact absurd he (by decide)
    | ok t =>
      rw [hamax] at h
      have h' : finishResult d objA objB t = Except.error mismatchMsg := h
      unfold finishResult at h'
      rw [if_pos (buildResult_lengths d objA objB t)] at h'
      exact absurd h' (by simp)

/-- Counterexample to C5 as stated: the claim says the matcher fails for
every `sampleSize ≤ 0`, but at `sampleSize = -1` with a two-point smaller
set the code succeeds (Python's negative slice keeps all but the last
sorted distance). -/
theorem c5_counterexample :
    mainModel qd exC exD (-1) = Except.ok ⟨[0], [11], 1⟩ ∧ (-1 : ℤ) ≤ 0 := by
  exact ⟨by rfl, by decide⟩

/-- C5 amended: the matcher fails exactly when an input set is empty, the
sample size is `0`, or the sample size is at most `-n` (`n` the smaller-set
size); sample sizes in `(-n, 0)` are accepted because of Python's
negative-slice semantics. -/
theorem c5_failure_conditions_amended {P : Type} [Inhabited P] (d : P → P → ℚ)
    (objA objB : List (P × ℕ)) (s : ℤ) :
    (∃ e, mainModel d objA objB s = Except.error e) ↔
      (objA = [] ∨ objB = [] ∨ s = 0 ∨
        s + ((smallSet objA objB).length : ℤ) ≤ 0) := by
  constructor
  · rintro ⟨e, he⟩
    by_contra hcon
    push_neg at hcon
    obtain ⟨hA, hB, hs0, hsn⟩ := hcon
    have hLne := finalState_leastdists_ne_nil d hA hB
    have hLpos : 1 ≤ (finalState d objA objB).leastdists.length :=
      List.length_pos.mpr hLne
    have hslen : (npSort (finalState d objA objB).leastdists).length =
        (finalState d objA objB).leastdists.length := length_npSort _
    have hn : (finalState d objA objB).leastdists.length =
        (smallSet objA objB).length := (finalState_lengths d objA objB).1
    have hslne : pySlice (npSort (finalState d objA objB).leastdists) s ≠ [] := by
      rcases lt_or_gt_of_ne hs0 with hneg | hpos
      · unfold pySlice
        rw [if_neg (not_le.mpr hneg)]
        intro hnil
        rcases List.take_eq_nil_iff.mp hnil with h0 | h0
        · have : ((npSort (finalState d objA objB).leastdists).length : ℤ) + s ≤ 0 :=
            Int.toNat_eq_zero.mp h0
          rw [hslen, hn] at this
          omega
        · rw [h0] at hslen
          simp at hslen
          omega
      · unfold pySlice
        rw [if_pos (by omega)]
        intro hnil
        rcases List.take_eq_nil_iff.mp hnil with h0 | h0
        · have : s ≤ 0 := Int.toNat_eq_zero.mp h0
          omega
        · rw [h0] at hslen
          simp at hslen
          omega
    have hok := mainModel_ok_eq d hA hB (npAmax_eq hslne)
    rw [he] at hok
    exact absurd hok (by simp)
  · intro hcase
    by_cases hemp : objA = [] ∨ objB = []
    · exact ⟨emptyMsg, mainModel_error_empty d s hemp⟩
    · push_neg at hemp
      obtain ⟨hA, hB⟩ := hemp
      have hn : (finalState d objA objB).leastdists.length =
          (smallSet objA objB).length := (finalState_lengths d objA objB).1
      have hnpos : 1 ≤ (smallSet objA objB).length :=
        List.length_pos.mpr (smallSet_ne_nil hA hB)
      rcases hcase with he | he | he | he
      · exact absurd he hA
      · exact absurd he hB
      · subst he
        have hax : npAmax (pySlice (npSort (finalState d objA objB).leastdists) 0) =
            Except.error "zero-size array to reduction operation maximum" := by
          rw [pySlice_zero]
          rfl
        exact ⟨_, mainModel_error_amax d hA hB hax⟩
      · have hneg : s < 0 := by omega
        have hax : npAmax (pySlice (npSort (finalState d objA objB).leastdists) s) =
            Except.error "zero-size array to reduction operation maximum" := by
          rw [pySlice_neg_nil _ hneg (by rw [length_npSort, hn]; omega)]
          rfl
        exact ⟨_, mainModel_error_amax d hA hB hax⟩

/-- C3: one loop pass replaces a recorded best distance and its partner
index exactly when the newly computed distance is strictly smaller; an equal
distance leaves both untouched (first-found-wins), so each position's best
distance never increases from one offset to the next. -/
theorem c3_strict_improvement_only {P : Type} [Inhabited P] (d : P → P → ℚ)
    (small large : List P) (hsl : small.length ≤ large.length) (k i : ℕ)
    (hi : i < small.length) :
    ((sweepN d small large large.length small.length (k + 1)).leastdists.getD i 0 =
      if (offsetDists d small large (k + 1)).getD i 0 <
          (sweepN d small large large.length small.length k).leastdists.getD i 0
      then (offsetDists d small large (k + 1)).getD i 0
      else (sweepN d small large large.length small.length k).leastdists.getD i 0) ∧
    ((sweepN d small large large.length small.length (k + 1)).dynamic_pointer.getD i 0 =
      if (offsetDists d small large (k + 1)).getD i 0 <
          (sweepN d small large large.length small.length k).leastdists.getD i 0
      then (((List.range large.length).rotate (k + 1)).take small.length).getD i 0
      else (sweepN d small large large.length small.length k).dynamic_pointer.getD i 0) ∧
    (sweepN d small large large.length small.length (k + 1)).leastdists.getD i 0 ≤
      (sweepN d small large large.length small.length k).leastdists.getD i 0 := by
  have h1 := sweepN_least_succ_getD d small large large.length small.length k i rfl hsl hi
  have h2 := sweepN_dyn_succ_getD d small large large.length small.length k i rfl hsl hi
  rw [offsetDists_def]
  refine ⟨h1, h2, ?_⟩
  rw [h1]
  split
  · exact le_of_lt (by assumption)
  · exact le_refl _

/-- Witness for C3 at a concrete instance: one point against two points,
first loop pass. -/
theorem c3_witness :
    ([(0 : ℚ)].length ≤ [(0 : ℚ), 1].length) ∧ (0 < [(0 : ℚ)].length) ∧
    (((sweepN qd [(0 : ℚ)] [(0 : ℚ), 1] [(0 : ℚ), 1].length [(0 : ℚ)].length
        (0 + 1)).leastdists.getD 0 0 =
      if (offsetDists qd [(0 : ℚ)] [(0 : ℚ), 1] (0 + 1)).getD 0 0 <
          (sweepN qd [(0 : ℚ)] [(0 : ℚ), 1] [(0 : ℚ), 1].length [(0 : ℚ)].length
            0).leastdists.getD 0 0
      then (offsetDists qd [(0 : ℚ)] [(0 : ℚ), 1] (0 + 1)).getD 0 0
      else (sweepN qd [(0 : ℚ)] [(0 : ℚ), 1] [(0 : ℚ), 1].length [(0 : ℚ)].length
        0).leastdists.getD 0 0) ∧
    (((sweepN qd [(0 : ℚ)] [(0 : ℚ), 1] [(0 : ℚ), 1].length [(0 : ℚ)].length
        (0 + 1)).dynamic_pointer.getD 0 0 =
      if (offsetDists qd [(0 : ℚ)] [(0 : ℚ), 1] (0 + 1)).getD 0 0 <
          (sweepN qd [(0 : ℚ)] [(0 : ℚ), 1] [(0 : ℚ), 1].length [(0 : ℚ)].length
            0).leastdists.getD 0 0
      then (((List.range [(0 : ℚ), 1].length).rotate (0 + 1)).take
        [(0 : ℚ)].length).getD 0 0
      else (sweepN qd [(0 : ℚ)] [(0 : ℚ), 1] [(0 : ℚ), 1].length [(0 : ℚ)].length
        0).dynamic_pointer.getD 0 0)) ∧
    (sweepN qd [(0 : ℚ)] [(0 : ℚ), 1] [(0 : ℚ), 1].length [(0 : ℚ)].length
      (0 + 1)).leastdists.getD 0 0 ≤
      (sweepN qd [(0 : ℚ)] [(0 : ℚ), 1] [(0 : ℚ), 1].length [(0 : ℚ)].length
        0).leastdists.getD 0 0) :=
  ⟨by decide, by decide,
    c3_strict_improvement_only qd [(0 : ℚ)] [(0 : ℚ), 1] (by decide) 0 0 (by decide)⟩

/-- C6: the search performs `iterations = n + extra - 1` loop passes on top
of the initial pass — `m` offsets in total — and completes all of them: each
finalized best distance is the minimum of that position's distance over all
`m` cyclic offsets, with no early exit. -/
theorem c6_full_cyclic_sweep {P : Type} [Inhabited P] (d : P → P → ℚ)
    (objA objB : List (P × ℕ)) (hA : objA ≠ []) (hB : objB ≠ []) :
    finalState d objA objB =
      sweepN d ((smallSet objA objB).map Prod.fst) ((largeSet objA objB).map Prod.fst)
        ((largeSet objA objB).length) ((smallSet objA objB).length)
        (((smallSet objA objB).length +
          ((largeSet objA objB).length - (smallSet objA objB).length)) - 1) ∧
    ((((smallSet objA objB).length +
        ((largeSet objA objB).length - (smallSet objA objB).length)) - 1) + 1 =
      (largeSet objA objB).length) ∧
    ∀ i, i < (smallSet objA objB).length →
      (finalState d objA objB).leastdists.getD i 0 =
        minOfD ((List.range ((largeSet objA objB).length)).map
          (fun k => (offsetDists d ((smallSet objA objB).map Prod.fst)
            ((largeSet objA objB).map Prod.fst) k).getD i 0)) := by
  have hnm := smallSet_length_le objA objB
  have hm1 : 1 ≤ (largeSet objA objB).length :=
    List.length_pos.mpr (largeSet_ne_nil hA hB)
  have hiter : (((smallSet objA objB).length +
      ((largeSet objA objB).length - (smallSet objA objB).length)) - 1) =
      (largeSet objA objB).length - 1 := by omega
  refine ⟨?_, by omega, ?_⟩
  · rw [finalState_eq, hiter]
  · intro i hi
    rw [finalState_eq]
    have hlm : ((smallSet objA objB).map Prod.fst).length ≤
        ((largeSet objA objB).map Prod.fst).length := by
      rw [List.length_map, List.length_map]
      exact hnm
    have h := sweepN_least_eq_min d ((smallSet objA objB).map Prod.fst)
      ((largeSet objA objB).map Prod.fst) hlm ((largeSet objA objB).length - 1) i
      (by rw [List.length_map]; exact hi)
    rw [List.length_map, List.length_map] at h
    rw [Nat.sub_add_cancel hm1] at h
    exact h

/-- Witness for C6 at a concrete input: three points against two points. -/
theorem c6_witness :
    exC ≠ [] ∧ exD ≠ [] ∧
    (finalState qd exC exD =
      sweepN qd ((smallSet exC exD).map Prod.fst) ((largeSet exC exD).map Prod.fst)
        ((largeSet exC exD).length) ((smallSet exC exD).length)
        (((smallSet exC exD).length +
          ((largeSet exC exD).length - (smallSet exC exD).length)) - 1) ∧
    ((((smallSet exC exD).length +
        ((largeSet exC exD).length - (smallSet exC exD).length)) - 1) + 1 =
      (largeSet exC exD).length) ∧
    ∀ i, i < (smallSet exC exD).length →
      (finalState qd exC exD).leastdists.getD i 0 =
        minOfD ((List.range ((largeSet exC exD).length)).map
          (fun k => (offsetDists qd ((smallSet exC exD).map Prod.fst)
            ((largeSet exC exD).map Prod.fst) k).getD i 0))) :=
  ⟨by decide, by decide, c6_full_cyclic_sweep qd exC exD (by decide) (by decide)⟩

/-- C7: on equal-size inputs where offset 0 is already pointwise optimal,
the finalized best distances are exactly the direct elementwise distances at
offset 0 and every position keeps partner index `i`: no later offset ever
replaces a recorded best. -/
theorem c7_aligned_inputs_stay_at_offset_zero {P : Type} [Inhabited P]
    (d : P → P → ℚ) (objA objB : List (P × ℕ)) (hA : objA ≠ []) (hB : objB ≠ [])
    (hlen : objA.length = objB.length)
    (hopt : ∀ i, i < (smallSet objA objB).length →
      ∀ k, k < (largeSet objA objB).length →
      (offsetDists d ((smallSet objA objB).map Prod.fst)
        ((largeSet objA objB).map Prod.fst) 0).getD i 0 ≤
      (offsetDists d ((smallSet objA objB).map Prod.fst)
        ((largeSet objA objB).map Prod.fst) k).getD i 0) :
    (finalState d objA objB).leastdists =
      directElementwise d ((smallSet objA objB).map Prod.fst)
        ((largeSet objA objB).map Prod.fst) ∧
    (finalState d objA objB).dynamic_pointer =
      List.range (smallSet objA objB).length := by
  have heq : ((smallSet objA objB).map Prod.fst).length =
      ((largeSet objA objB).map Prod.fst).length := by
    rw [List.length_map, List.length_map]
    unfold smallSet largeSet
    split
    · exact hlen
    · exact hlen.symm
  have hm1 : 1 ≤ (largeSet objA objB).length :=
    List.length_pos.mpr (largeSet_ne_nil hA hB)
  have hopt' : ∀ i, i < ((smallSet objA objB).map Prod.fst).length →
      ∀ k, k < ((largeSet objA objB).map Prod.fst).length →
      (offsetDists d ((smallSet objA objB).map Prod.fst)
        ((largeSet objA objB).map Prod.fst) 0).getD i 0 ≤
      (offsetDists d ((smallSet objA objB).map Prod.fst)
        ((largeSet objA objB).map Prod.fst) k).getD i 0 := by
    intro i hi k hk
    rw [List.length_map] at hi hk
    exact hopt i hi k hk
  have hstay := sweepN_stays d ((smallSet objA objB).map Prod.fst)
    ((largeSet objA objB).map Prod.fst) heq hopt'
    (((largeSet objA objB).map Prod.fst).length - 1)
    (by rw [List.length_map]; omega)
  have hfin : finalState d objA objB =
      sweepN d ((smallSet objA objB).map Prod.fst) ((largeSet objA objB).map Prod.fst)
        (((largeSet objA objB).map Prod.fst).length)
        (((smallSet objA objB).map Prod.fst).length)
        ((((largeSet objA objB).map Prod.fst).length) - 1) := by
    rw [finalState_eq, List.length_map, List.length_map]
  constructor
  · rw [hfin, hstay.1]
    exact offsetDists_zero_eq_direct d _ _ (le_of_eq heq)
  · rw [hfin, hstay.2, List.length_map]

/-- Witness for C7 at a concrete input: two identical aligned point sets. -/
theorem c7_witness :
    alignA ≠ [] ∧ alignB ≠ [] ∧ alignA.length = alignB.length ∧
    (∀ i, i < (smallSet alignA alignB).length →
      ∀ k, k < (largeSet alignA alignB).length →
      (offsetDists qd ((smallSet alignA alignB).map Prod.fst)
        ((largeSet alignA alignB).map Prod.fst) 0).getD i 0 ≤
      (offsetDists qd ((smallSet alignA alignB).map Prod.fst)
        ((largeSet alignA alignB).map Prod.fst) k).getD i 0) ∧
    ((finalState qd alignA alignB).leastdists =
      directElementwise qd ((smallSet alignA alignB).map Prod.fst)
        ((largeSet alignA alignB).map Prod.fst) ∧
    (finalState qd alignA alignB).dynamic_pointer =
      List.range (smallSet alignA alignB).length) :=
  ⟨by decide, by decide, by decide, by decide,
    c7_aligned_inputs_stay_at_offset_zero qd alignA alignB (by decide) (by decide)
      (by decide) (by decide)⟩

/-- C1: with non-empty inputs and a sample size of at least 1, the emitted
threshold is the entry at position `sampleSize - 1` of the ascending sort of
the rounded finalized distances, rounded again (a no-op by idempotence); and
when `sampleSize ≥ n` it is the maximum rounded distance (the value of
`np.amax` over the rounded distance array). -/
theorem c1_threshold_from_sorted_rounded {P : Type} [Inhabited P] (d : P → P → ℚ)
    (objA objB : List (P × ℕ)) (s : ℤ) (r : PairingResult)
    (hs : 1 ≤ s) (h : mainModel d objA objB s = Except.ok r) :
    (s.toNat ≤ (smallSet objA objB).length →
      r.threshold = round5 ((sortedRounded (finalState d objA objB).leastdists).getD
        (s.toNat - 1) 0)) ∧
    (((smallSet objA objB).length : ℤ) ≤ s →
      npAmax ((finalState d objA objB).leastdists.map round5) =
        Except.ok r.threshold) := by
  have hthr := mainModel_threshold_eq hs h
  obtain ⟨hA, hB, t, hamax, hr⟩ := mainModel_ok_inv h
  have hLlen : (finalState d objA objB).leastdists.length =
      (smallSet objA objB).length := (finalState_lengths d objA objB).1
  have hLne := finalState_leastdists_ne_nil d hA hB
  have hn1 : 1 ≤ (finalState d objA objB).leastdists.length :=
    List.length_pos.mpr hLne
  have hst1 : 1 ≤ s.toNat := by
    have h2 := Int.toNat_le_toNat hs
    simpa using h2
  constructor
  · intro hsn
    have hkmin : min s.toNat (finalState d objA objB).leastdists.length = s.toNat :=
      min_eq_left (by rw [hLlen]; exact hsn)
    have hidx : s.toNat - 1 < (npSort (finalState d objA objB).leastdists).length := by
      rw [length_npSort, hLlen]
      omega
    rw [hthr, hkmin]
    unfold sortedRounded
    rw [npSort_map_round5, getD_map_lt round5 _ (s.toNat - 1) hidx 0 0, round5_idem]
  · intro hns
    have hsn : (finalState d objA objB).leastdists.length ≤ s.toNat := by
      rw [hLlen]
      have h2 := Int.toNat_le_toNat hns
      simpa using h2
    have hkmin : min s.toNat (finalState d objA objB).leastdists.length =
        (finalState d objA objB).leastdists.length := min_eq_right hsn
    have hmapne : (finalState d objA objB).leastdists.map round5 ≠ [] := by
      intro he
      exact hLne (List.map_eq_nil.mp he)
    have hsmapne : (npSort (finalState d objA objB).leastdists).map round5 ≠ [] := by
      intro he
      have h2 := congrArg List.length he
      rw [List.length_map, length_npSort] at h2
      exact hLne (List.eq_nil_of_length_eq_zero (by simpa using h2))
    have hperm : ((npSort (finalState d objA objB).leastdists).map round5).Perm
        ((finalState d objA objB).leastdists.map round5) :=
      (perm_npSort _).map round5
    have hsorted : ((npSort (finalState d objA objB).leastdists).map round5).Sorted
        (· ≤ ·) :=
      List.Pairwise.map round5 (fun a b hab => round5_mono hab)
        (sorted_npSort (finalState d objA objB).leastdists)
    rw [npAmax_eq hmapne]
    rw [← maxOfD_perm hperm hsmapne]
    rw [maxOfD_sorted _ hsorted hsmapne, List.length_map, length_npSort]
    rw [getD_map_lt round5 _ ((finalState d objA objB).leastdists.length - 1)
      (by rw [length_npSort]; omega) 0 0]
    rw [hthr, hkmin]

/-- Witness for C1 at a concrete input: three points against two points,
sample size 2 equals the smaller-set size. -/
theorem c1_witness :
    (1 : ℤ) ≤ 2 ∧ mainModel qd exC exD 2 = Except.ok ⟨[0, 1], [11, 12], 2⟩ ∧
    (((2 : ℤ).toNat ≤ (smallSet exC exD).length →
      (PairingResult.mk [0, 1] [11, 12] 2).threshold =
        round5 ((sortedRounded (finalState qd exC exD).leastdists).getD
          ((2 : ℤ).toNat - 1) 0)) ∧
    (((smallSet exC exD).length : ℤ) ≤ 2 →
      npAmax ((finalState qd exC exD).leastdists.map round5) =
        Except.ok (PairingResult.mk [0, 1] [11, 12] 2).threshold)) :=
  ⟨by decide, by rfl,
    c1_threshold_from_sorted_rounded qd exC exD 2 ⟨[0, 1], [11, 12], 2⟩
      (by decide) (by rfl)⟩

/-- C8: for fixed inputs the threshold is monotone in the sample size: a
larger sample size never yields a smaller threshold. -/
theorem c8_threshold_monotone_in_samplesize {P : Type} [Inhabited P]
    (d : P → P → ℚ) (objA objB : List (P × ℕ)) (k1 k2 : ℤ)
    (r1 r2 : PairingResult) (h1p : 1 ≤ k1) (h12 : k1 ≤ k2)
    (h1 : mainModel d objA objB k1 = Except.ok r1)
    (h2 : mainModel d objA objB k2 = Except.ok r2) :
    r1.threshold ≤ r2.threshold := by
  have ht1 := mainModel_threshold_eq h1p h1
  have ht2 := mainModel_threshold_eq (le_trans h1p h12) h2
  obtain ⟨hA, hB, _, _, _⟩ := mainModel_ok_inv h1
  have hLne := finalState_leastdists_ne_nil d hA hB
  have hn1 : 1 ≤ (finalState d objA objB).leastdists.length :=
    List.length_pos.mpr hLne
  have hk1 : 1 ≤ k1.toNat := by
    have := Int.toNat_le_toNat h1p
    simpa using this
  have hkk : k1.toNat ≤ k2.toNat := Int.toNat_le_toNat h12
  have hmin : min k1.toNat (finalState d objA objB).leastdists.length ≤
      min k2.toNat (finalState d objA objB).leastdists.length :=
    min_le_min hkk le_rfl
  have hmin1 : 1 ≤ min k1.toNat (finalState d objA objB).leastdists.length :=
    le_min hk1 hn1
  have hidx : min k2.toNat (finalState d objA objB).leastdists.length - 1 <
      (npSort (finalState d objA objB).leastdists).length := by
    rw [length_npSort]
    have := min_le_right k2.toNat (finalState d objA objB).leastdists.length
    omega
  rw [ht1, ht2]
  exact round5_mono (sorted_getD_mono (sorted_npSort _) (by omega) hidx)

/-- Witness for C8 at a concrete input: sample sizes 1 and 2 on three
points against two points. -/
theorem c8_witness :
    (1 : ℤ) ≤ 1 ∧ (1 : ℤ) ≤ 2 ∧
    mainModel qd exC exD 1 = Except.ok ⟨[0], [11], 1⟩ ∧
    mainModel qd exC exD 2 = Except.ok ⟨[0, 1], [11, 12], 2⟩ ∧
    (PairingResult.mk [0] [11] 1).threshold ≤
      (PairingResult.mk [0, 1] [11, 12] 2).threshold :=
  ⟨by decide, by decide, by rfl, by rfl,
    c8_threshold_monotone_in_samplesize qd exC exD 1 2 ⟨[0], [11], 1⟩
      ⟨[0, 1], [11, 12], 2⟩ (by decide) (by decide) (by rfl) (by rfl)⟩

/-- C10: with non-empty inputs and sample size at least 1, at least
`min(sampleSize, n)` pairs are emitted: the `min(sampleSize, n)` smallest
rounded distances are all within the threshold. -/
theorem c10_at_least_min_samplesize_pairs {P : Type} [Inhabited P]
    (d : P → P → ℚ) (objA objB : List (P × ℕ)) (s : ℤ) (r : PairingResult)
    (hs : 1 ≤ s) (h : mainModel d objA objB s = Except.ok r) :
    min s.toNat (smallSet objA objB).length ≤ r.smallIds.length := by
  have hthr := mainModel_threshold_eq hs h
  obtain ⟨hA, hB, t, hamax, hr⟩ := mainModel_ok_inv h
  have hLlen : (finalState d objA objB).leastdists.length =
      (smallSet objA objB).length := (finalState_lengths d objA objB).1
  have hLne := finalState_leastdists_ne_nil d hA hB
  have hn1 : 1 ≤ (finalState d objA objB).leastdists.length :=
    List.length_pos.mpr hLne
  have hst1 : 1 ≤ s.toNat := by
    have h2 := Int.toNat_le_toNat hs
    simpa using h2
  -- abbreviations
  set L := (finalState d objA objB).leastdists with hL
  set k := min s.toNat L.length with hk
  have hk1 : 1 ≤ k := le_min hst1 hn1
  have hkn : k ≤ L.length := min_le_right _ _
  -- the threshold value is the k-th smallest rounded distance
  have hT : r.threshold = ((npSort L).map round5).getD (k - 1) 0 := by
    rw [hthr, getD_map_lt round5 _ (k - 1) (by rw [length_npSort]; omega) 0 0]
  -- the emitted small-id list counts the rounded distances within threshold
  have hsmall : r.smallIds =
      maskFilter ((L.map round5).map (fun q => decide (q ≤ r.threshold)))
        ((smallSet objA objB).map Prod.snd) := by
    rw [hr]
    rfl
  have hmasklen : ((L.map round5).map (fun q => decide (q ≤ r.threshold))).length =
      L.length := by
    rw [List.length_map, List.length_map]
  have hcount : r.smallIds.length =
      ((L.map round5).map (fun q => decide (q ≤ r.threshold))).countP
        (fun b => b) := by
    rw [hsmall, maskFilter_length _ _ (by rw [hmasklen, List.length_map, hLlen])]
  have hcountP : ((L.map round5).map (fun q => decide (q ≤ r.threshold))).countP
      (fun b => b) = (L.map round5).countP (fun q => decide (q ≤ r.threshold)) := by
    rw [List.countP_map]
    rfl
  have hperm : ((npSort L).map round5).Perm (L.map round5) :=
    (perm_npSort _).map round5
  have hpermcount : (L.map round5).countP (fun q => decide (q ≤ r.threshold)) =
      ((npSort L).map round5).countP (fun q => decide (q ≤ r.threshold)) :=
    (hperm.countP_eq _).symm
  have hsorted : ((npSort L).map round5).Sorted (· ≤ ·) :=
    List.Pairwise.map round5 (fun a b hab => round5_mono hab) (sorted_npSort L)
  have hsrlen : ((npSort L).map round5).length = L.length := by
    rw [List.length_map, length_npSort]
  have htakelen : (((npSort L).map round5).take k).length = k := by
    rw [List.length_take, hsrlen]
    omega
  have htakeall : ∀ x ∈ ((npSort L).map round5).take k,
      decide (x ≤ r.threshold) = true := by
    intro x hx
    have hsortedtake : (((npSort L).map round5).take k).Sorted (· ≤ ·) :=
      hsorted.sublist (List.take_sublist k _)
    have hxle := sorted_le_getLastD _ hsortedtake x hx
    have htne : ((npSort L).map round5).take k ≠ [] := by
      intro he
      rw [he] at htakelen
      simp at htakelen
      omega
    rw [getLastD_eq_getD, htakelen,
      getD_take_lt _ k (k - 1) (by omega) 0] at hxle
    rw [← hT] at hxle
    simpa using hxle
  have hcounttake : (((npSort L).map round5).take k).countP
      (fun q => decide (q ≤ r.threshold)) = k := by
    have := List.countP_eq_length.mpr htakeall
    rw [this, htakelen]
  have hle : k ≤ ((npSort L).map round5).countP (fun q => decide (q ≤ r.threshold)) := by
    have hsub := (List.take_sublist k ((npSort L).map round5)).countP_le
      (fun q => decide (q ≤ r.threshold))
    omega
  rw [hcount, hcountP, hpermcount]
  rw [← hLlen]
  exact hle

/-- Witness for C10 at a concrete input: three points against two points,
sample size 2. -/
theorem c10_witness :
    (1 : ℤ) ≤ 2 ∧ mainModel qd exC exD 2 = Except.ok ⟨[0, 1], [11, 12], 2⟩ ∧
    min (2 : ℤ).toNat (smallSet exC exD).length ≤
      (PairingResult.mk [0, 1] [11, 12] 2).smallIds.length :=
  ⟨by decide, by rfl,
    c10_at_least_min_samplesize_pairs qd exC exD 2 ⟨[0, 1], [11, 12], 2⟩
      (by decide) (by rfl)⟩

/-- C4: the output pairing is exactly the positions whose rounded best
distance is within the threshold, emitted as
`(large identifier, small identifier)` pairs in increasing position order;
and the pair count can exceed the sample size when rounded distances tie at
the threshold (two coincident pairs with sample size 1 yield 2 pairs). -/
theorem c4_selection_rule :
    (∀ {Q : Type} [Inhabited Q] (d : Q → Q → ℚ) (objA objB : List (Q × ℕ))
      (s : ℤ) (r : PairingResult), mainModel d objA objB s = Except.ok r →
      r.largeIds.zip r.smallIds =
        ((List.range (smallSet objA objB).length).filter
          (fun i => decide (round5 ((finalState d objA objB).leastdists.getD i 0) ≤
            r.threshold))).map
          (fun i => (((largeSet objA objB).map Prod.snd).getD
              ((finalState d objA objB).dynamic_pointer.getD i 0) 0,
            ((smallSet objA objB).map Prod.snd).getD i 0))) ∧
    Except.map (fun pr => pr.smallIds.length) (mainModel qd tieA tieB 1) =
      Except.ok 2 := by
  constructor
  · intro Q _ d objA objB s r h
    obtain ⟨hA, hB, t, hamax, hr⟩ := mainModel_ok_inv h
    subst hr
    have hLlen : (finalState d objA objB).leastdists.length =
        (smallSet objA objB).length := (finalState_lengths d objA objB).1
    have hdynlen : (finalState d objA objB).dynamic_pointer.length =
        (smallSet objA objB).length := (finalState_lengths d objA objB).2
    have hlim : (((largeSet objA objB).map Prod.fst).length -
        ((((largeSet objA objB).map Prod.fst).length) -
          (((smallSet objA objB).map Prod.fst).length))) =
        (smallSet objA objB).length := by
      rw [List.length_map, List.length_map]
      exact Nat.sub_sub_self (smallSet_length_le objA objB)
    have hdpTlen : ((finalState d objA objB).dynamic_pointer.take
        (((largeSet objA objB).map Prod.fst).length -
          ((((largeSet objA objB).map Prod.fst).length) -
            (((smallSet objA objB).map Prod.fst).length)))).length =
        (smallSet objA objB).length := by
      rw [hlim, List.length_take, hdynlen]
      exact min_self _
    have hmasklen : ((((finalState d objA objB).leastdists.map round5).map
        (fun q => decide (q ≤ round5 t)))).length = (smallSet objA objB).length := by
      rw [List.length_map, List.length_map, hLlen]
    rw [buildResult_largeIds, buildResult_smallIds, buildResult_threshold]
    rw [← maskFilter_map]
    rw [maskFilter_zip _ _ _ (by rw [List.length_map, hdpTlen, List.length_map])]
    rw [maskFilter_eq_filter_range (0, 0) _ _
      (by rw [hmasklen, List.length_zip, List.length_map, hdpTlen, List.length_map]
          simp)]
    have hziplen : ((((finalState d objA objB).dynamic_pointer.take
        (((largeSet objA objB).map Prod.fst).length -
          ((((largeSet objA objB).map Prod.fst).length) -
            (((smallSet objA objB).map Prod.fst).length)))).map
          (fun j => ((largeSet objA objB).map Prod.snd).getD j 0)).zip
        ((smallSet objA objB).map Prod.snd)).length = (smallSet objA objB).length := by
      rw [List.length_zip, List.length_map, hdpTlen, List.length_map]
      simp
    rw [hziplen]
    rw [List.filter_congr' (by
      intro i hi
      have hin : i < (smallSet objA objB).length := List.mem_range.mp hi
      rw [getD_map_lt (fun q => decide (q ≤ round5 t)) _ i
          (by rw [List.length_map, hLlen]; exact hin) false 0,
        getD_map_lt round5 _ i (by rw [hLlen]; exact hin) 0 0])]
    refine List.map_eq_map_iff.mpr ?_
    intro i hi
    have hin : i < (smallSet objA objB).length :=
      List.mem_range.mp (List.mem_of_mem_filter hi)
    rw [getD_zip _ _ i
        (by rw [List.length_map, hdpTlen]; exact hin)
        (by rw [List.length_map]; exact hin) 0 0,
      getD_map_lt (fun j => ((largeSet objA objB).map Prod.snd).getD j 0) _ i
        (by rw [hdpTlen]; exact hin) 0 0,
      getD_take_lt _ _ i (by rw [hlim]; exact hin) 0]
  · rfl

/-- Witness for C4 at a concrete input: three points against two points,
sample size 1. -/
theorem c4_witness :
    mainModel qd exC exD 1 = Except.ok ⟨[0], [11], 1⟩ ∧
    (PairingResult.mk [0] [11] 1).largeIds.zip
        (PairingResult.mk [0] [11] 1).smallIds =
      ((List.range (smallSet exC exD).length).filter
        (fun i => decide (round5 ((finalState qd exC exD).leastdists.getD i 0) ≤
          (PairingResult.mk [0] [11] 1).threshold))).map
        (fun i => (((largeSet exC exD).map Prod.snd).getD
            ((finalState qd exC exD).dynamic_pointer.getD i 0) 0,
          ((smallSet exC exD).map Prod.snd).getD i 0)) :=
  ⟨by rfl, c4_selection_rule.1 qd exC exD 1 ⟨[0], [11], 1⟩ (by rfl)⟩

end Contact
